import Mathlib

/-!
# Verification of the lua-for-vscode language-server indexing core

Shallow embedding of `src/server/src/server.ts` (the only source file).
The external collaborators (the luaparse parser, the LSP transport, the
file system) are modelled as parameters: the parser is a function
`String → Option LuaNode` (`none` models a parse exception), document
content arrives as explicit arguments.

Data model mirrors the TypeScript:
* `Position`/`Range`/`Location`/`SymbolInformation` mirror the
  vscode-languageserver structures the code builds;
* `Loc` mirrors the luaparse `node.loc` field (1-based lines);
* `LuaNode` mirrors the node shapes the walker `parseNode` dispatches on
  (`Identifier`, `FunctionDeclaration`, `CallStatement`, `CallExpression`,
  and a generic `other` shape carrying the duck-typed `.identifier` /
  `.body` children the default case probes);
* `LuaFileInfo` mirrors the class of the same name; its `symbolDict`
  (a JS object) is modelled as an association list with JS-object update
  semantics (replacing a key keeps its original position);
* the global `luaFileDict` is modelled as an association list in insertion
  order (JS objects enumerate non-numeric string keys in insertion order).

Mutation is modelled by explicit state passing: each handler takes the
workspace dictionary and returns the updated one.
-/

/-- LSP position: zero-based line/character, as produced by `getRange`. -/
structure Position where
  line : Nat
  character : Nat
deriving Repr, DecidableEq

/-- LSP range, `{start, end}`. The TypeScript field `end` is a Lean keyword,
rendered `stop`. -/
structure Range where
  start : Position
  stop : Position
deriving Repr, DecidableEq

/-- LSP location, as stored inside a `SymbolInformation`. -/
structure Location where
  uri : String
  range : Range
deriving Repr, DecidableEq

/-- vscode-languageserver `SymbolInformation` as used by the server:
`SymbolInformation.create(name, kind, range, uri)` stores the name, the
numeric symbol kind, and a location made of the uri and the range. -/
structure SymbolInformation where
  name : String
  kind : Nat
  location : Location
deriving Repr, DecidableEq

/-- `SymbolInformation.create(name, kind, range, uri)`. -/
def SymbolInformation.create (name : String) (kind : Nat) (range : Range)
    (uri : String) : SymbolInformation :=
  ⟨name, kind, ⟨uri, range⟩⟩

/-- luaparse source position: 1-based `line`, 0-based `column`. -/
structure LocPos where
  line : Nat
  column : Nat
deriving Repr, DecidableEq

/-- luaparse `node.loc`: start and end source positions. -/
structure Loc where
  start : LocPos
  stop : LocPos
deriving Repr, DecidableEq

/-- The AST node shapes `parseNode` dispatches on. Children that the
TypeScript reads only when non-null are `Option`s. The `other` constructor
stands for every node kind the switch has no case for; the default branch
only probes its `.identifier` and `.body` children, so those two are all the
model needs to carry. `FunctionDeclaration` also carries its parameter list
(present in luaparse output, never visited by the walker). -/
inductive LuaNode where
  | identifier (name : String) (loc : Loc)
  | functionDeclaration (ident : Option LuaNode) (params : List LuaNode)
      (body : Option (List LuaNode)) (loc : Loc)
  | callStatement (expression : LuaNode) (loc : Loc)
  | callExpression (base : LuaNode) (arguments : Option (List LuaNode)) (loc : Loc)
  | other (ident : Option LuaNode) (body : Option (List LuaNode)) (loc : Loc)

/-- Reading `.name` off a node, as `parseNode` does on
`node.identifier.name`; a node without a `name` property yields the JS
`undefined`, modelled as the string `"undefined"` (the value a JS object key
coerces it to). Only `Identifier` nodes carry a real name. -/
def LuaNode.nameOf : LuaNode → String
  | .identifier name _ => name
  | _ => "undefined"

/-- `node.loc`, defined on every constructor. -/
def LuaNode.loc : LuaNode → Loc
  | .identifier _ l => l
  | .functionDeclaration _ _ _ l => l
  | .callStatement _ l => l
  | .callExpression _ _ l => l
  | .other _ _ l => l

/-- `getRange(node)`: converts the luaparse 1-based lines to 0-based LSP
lines and keeps columns. -/
def getRange (loc : Loc) : Range :=
  ⟨⟨loc.start.line - 1, loc.start.column⟩, ⟨loc.stop.line - 1, loc.stop.column⟩⟩

/-- The `Identifier` record the walker pushes: `{base:"", name, range}`. -/
structure Identifier where
  name : String
  base : String
  range : Range
deriving Repr, DecidableEq

/-- Association list with JS-object assignment semantics:
`d[k] = v` replaces the value of an existing key in place, else appends
(JS objects keep a replaced key at its original position and enumerate
non-numeric string keys in insertion order). -/
def jsInsert {α : Type} (k : String) (v : α) :
    List (String × α) → List (String × α)
  | [] => [(k, v)]
  | (k', v') :: rest =>
      if k' = k then (k', v) :: rest else (k', v') :: jsInsert k v rest

/-- JS-object property read `d[k]`, `undefined` modelled as `none`. -/
def jsLookup {α : Type} (k : String) : List (String × α) → Option α
  | [] => none
  | (k', v') :: rest => if k' = k then some v' else jsLookup k rest

/-- class `LuaFileInfo`. -/
structure LuaFileInfo where
  uri : String
  changed : Bool
  identifiers : List Identifier
  symbolList : List SymbolInformation
  symbolDict : List (String × SymbolInformation)
deriving Repr, DecidableEq

/-- the `LuaFileInfo` constructor: starts changed, with empty artifacts. -/
def LuaFileInfo.new (uri : String) : LuaFileInfo :=
  ⟨uri, true, [], [], []⟩

/-- `cleanSymbol()`: clears identifiers, symbol list and symbol dict. -/
def LuaFileInfo.cleanSymbol (f : LuaFileInfo) : LuaFileInfo :=
  { f with identifiers := [], symbolList := [], symbolDict := [] }

/-- `insertSymbol(symbol)`: pushes onto `symbolList` and assigns into
`symbolDict` under the symbol's name. -/
def LuaFileInfo.insertSymbol (f : LuaFileInfo) (symbol : SymbolInformation) :
    LuaFileInfo :=
  { f with
    symbolList := f.symbolList ++ [symbol]
    symbolDict := jsInsert symbol.name symbol f.symbolDict }

/-- pushing an identifier onto `luaFile.identifiers`. -/
def LuaFileInfo.pushIdentifier (f : LuaFileInfo) (id : Identifier) :
    LuaFileInfo :=
  { f with identifiers := f.identifiers ++ [id] }

mutual

/-- `parseNode(luaFile, parents, node)`: the AST walker, with the mutated
`luaFile` threaded as explicit state. The `parents` stack is threaded but
never read, exactly as in the source. -/
def parseNode (luaFile : LuaFileInfo) (parents : List LuaNode) :
    LuaNode → LuaFileInfo
  | .identifier name loc =>
      luaFile.pushIdentifier ⟨name, "", getRange loc⟩
  | .functionDeclaration ident params body loc =>
      let luaFile :=
        match ident with
        | some idNode =>
            luaFile.insertSymbol
              (SymbolInformation.create idNode.nameOf 12 (getRange loc) luaFile.uri)
        | none => luaFile
      match body with
      | some stmts =>
          parseNodes luaFile
            (LuaNode.functionDeclaration ident params body loc :: parents) stmts
      | none => luaFile
  | .callStatement expression _ =>
      parseNode luaFile parents expression
  | .callExpression base arguments _ =>
      let luaFile := parseNode luaFile parents base
      match arguments with
      | some args => parseNodes luaFile parents args
      | none => luaFile
  | .other ident body _ =>
      let luaFile :=
        match ident with
        | some idNode => parseNode luaFile parents idNode
        | none => luaFile
      match body with
      | some stmts => parseNodes luaFile parents stmts
      | none => luaFile

/-- the `for` loops of `parseNode`: visit a statement list left to right. -/
def parseNodes (luaFile : LuaFileInfo) (parents : List LuaNode) :
    List LuaNode → LuaFileInfo
  | [] => luaFile
  | n :: rest => parseNodes (parseNode luaFile parents n) parents rest

end

/-- `checkRange(range, line, character)`. -/
def checkRange (range : Range) (line character : Nat) : Bool :=
  if line < range.start.line || line > range.stop.line then
    false
  else if line = range.start.line && character < range.start.character then
    false
  else if line = range.stop.line && character > range.stop.character then
    false
  else
    true

/-- The global `luaFileDict`, a JS object keyed by uri, in insertion order. -/
abbrev Workspace := List (String × LuaFileInfo)

/-- Result of one `refreshFile(uri, content)` call. `dict` is the workspace
after the call (JS mutations through the `luaFile` reference included).
`walked` records whether `parseNode` ran (a dirty→clean transition);
`crashed` records that `parser.parse` threw and the exception escaped
`refreshFile` uncaught (there is no try/catch in the source). -/
structure RefreshResult where
  dict : Workspace
  walked : Bool
  crashed : Bool
deriving Repr, DecidableEq

/-- `refreshFile(uri, content)`. The external parser is a parameter
`parse : String → Option LuaNode`; `none` models a parse exception. The
source first gets-or-creates the `LuaFileInfo`; if it is `changed` it calls
`cleanSymbol()` (destroying the previous artifacts), then parses, then walks
the AST and only afterwards sets `changed = false`. A parse exception
escapes after `cleanSymbol()` already ran, so the cleaned file is what
remains in the dictionary. -/
def refreshFile (parse : String → Option LuaNode) (dict : Workspace)
    (uri content : String) : RefreshResult :=
  let luaFile :=
    match jsLookup uri dict with
    | some f => f
    | none => LuaFileInfo.new uri
  let dict :=
    match jsLookup uri dict with
    | some _ => dict
    | none => jsInsert uri (LuaFileInfo.new uri) dict
  if luaFile.changed then
    let luaFile := luaFile.cleanSymbol
    match parse content with
    | none => ⟨jsInsert uri luaFile dict, false, true⟩
    | some ast =>
        let luaFile := parseNode luaFile [] ast
        let luaFile := { luaFile with changed := false }
        ⟨jsInsert uri luaFile dict, true, false⟩
  else
    ⟨dict, false, false⟩

/-- the `documents.onDidChangeContent` handler: marks a known file changed,
ignores unknown uris. -/
def onDidChangeContent (dict : Workspace) (uri : String) : Workspace :=
  match jsLookup uri dict with
  | some luaFile => jsInsert uri { luaFile with changed := true } dict
  | none => dict

/-- `encodeUri(file)`: `file.replace(/\\/g, '/')` replaces every backslash;
`file.replace(":", "%3A")` replaces only the first colon (a string pattern
in JS replaces the first match); then the `file:///` prefix is prepended.
No case normalization happens anywhere. -/
def replaceFirstColon : List Char → List Char
  | [] => []
  | c :: rest =>
      if c = ':' then '%' :: '3' :: 'A' :: rest else c :: replaceFirstColon rest

/-- `encodeUri(file)`. -/
def encodeUri (file : String) : String :=
  let slashes := file.toList.map fun c => if c = '\\' then '/' else c
  "file:///" ++ String.mk (replaceFirstColon slashes)

/-- the `for` loop of `selectIdent`: first identifier whose range passes
`checkRange`, in array order. -/
def findIdent (line character : Nat) : List Identifier → Option Identifier
  | [] => none
  | id :: rest =>
      if checkRange id.range line character then some id
      else findIdent line character rest

/-- `selectIdent(uri, line, character)`. The source reads
`luaFileDict[uri]` without a guard; every caller runs `refreshFile` first,
which guarantees the entry exists (proved below), so the unknown-uri case is
unreachable and modelled as `none`. -/
def selectIdent (dict : Workspace) (uri : String) (line character : Nat) :
    Option Identifier :=
  match jsLookup uri dict with
  | some luaFile => findIdent line character luaFile.identifiers
  | none => none

/-- `searchIdent(uri, identifier)`: iterates `luaFileDict` in insertion
order and collects `symbolDict[identifier.name].location` wherever the
lookup hits. -/
def searchIdent (dict : Workspace) (identifier : Identifier) : List Location :=
  match dict with
  | [] => []
  | (_, luaFile) :: rest =>
      match jsLookup identifier.name luaFile.symbolDict with
      | some symbol => symbol.location :: searchIdent rest identifier
      | none => searchIdent rest identifier

/-- the `connection.onDefinition` handler: refresh, select the identifier
under the cursor, return `[]` if there is none, else resolve it across the
workspace. `none` in the second component models the request aborting on an
escaped parse exception. -/
def onDefinition (parse : String → Option LuaNode) (dict : Workspace)
    (uri content : String) (line character : Nat) :
    Workspace × Option (List Location) :=
  let r := refreshFile parse dict uri content
  if r.crashed then
    (r.dict, none)
  else
    match selectIdent r.dict uri line character with
    | none => (r.dict, some [])
    | some identifier => (r.dict, some (searchIdent r.dict identifier))

/-- the `connection.onDocumentSymbol` handler: refresh, then return the
file's `symbolList`. `none` in the second component models the request
aborting on an escaped parse exception. -/
def onDocumentSymbol (parse : String → Option LuaNode) (dict : Workspace)
    (uri content : String) : Workspace × Option (List SymbolInformation) :=
  let r := refreshFile parse dict uri content
  if r.crashed then
    (r.dict, none)
  else
    (r.dict, (jsLookup uri r.dict).map LuaFileInfo.symbolList)

mutual

/-- The identifier occurrences `parseNode` emits for one node, in emission
order (pure characterization of the walker, proved equal to it below). -/
def idents : LuaNode → List Identifier
  | .identifier name loc => [⟨name, "", getRange loc⟩]
  | .functionDeclaration _ _ body _ =>
      match body with
      | some stmts => identsList stmts
      | none => []
  | .callStatement expression _ => idents expression
  | .callExpression base arguments _ =>
      idents base ++
        match arguments with
        | some args => identsList args
        | none => []
  | .other ident body _ =>
      (match ident with
        | some idNode => idents idNode
        | none => []) ++
      match body with
      | some stmts => identsList stmts
      | none => []

/-- occurrences of a statement list, left to right. -/
def identsList : List LuaNode → List Identifier
  | [] => []
  | n :: rest => idents n ++ identsList rest

end

mutual

/-- The declared symbols `parseNode` inserts for one node, in insertion
order, for a file whose identity is `uri` (pure characterization of the
walker, proved equal to it below). -/
def syms (uri : String) : LuaNode → List SymbolInformation
  | .identifier _ _ => []
  | .functionDeclaration ident _ body loc =>
      (match ident with
        | some idNode =>
            [SymbolInformation.create idNode.nameOf 12 (getRange loc) uri]
        | none => []) ++
      match body with
      | some stmts => symsList uri stmts
      | none => []
  | .callStatement expression _ => syms uri expression
  | .callExpression base arguments _ =>
      syms uri base ++
        match arguments with
        | some args => symsList uri args
        | none => []
  | .other ident body _ =>
      (match ident with
        | some idNode => syms uri idNode
        | none => []) ++
      match body with
      | some stmts => symsList uri stmts
      | none => []

/-- declared symbols of a statement list, left to right. -/
def symsList (uri : String) : List LuaNode → List SymbolInformation
  | [] => []
  | n :: rest => syms uri n ++ symsList uri rest

end
/-- folding JS-object inserts of a symbol list into a symbol dict. -/
def dictAfter (d : List (String × SymbolInformation)) (ss : List SymbolInformation) :
    List (String × SymbolInformation) :=
  ss.foldl (fun d s => jsInsert s.name s d) d

theorem dictAfter_append (d : List (String × SymbolInformation)) (a b : List SymbolInformation) :
    dictAfter d (a ++ b) = dictAfter (dictAfter d a) b := by
  simp [dictAfter, List.foldl_append]

mutual

theorem parseNode_eq (f : LuaFileInfo) (p : List LuaNode) (n : LuaNode) :
    parseNode f p n =
      { f with identifiers := f.identifiers ++ idents n,
               symbolList := f.symbolList ++ syms f.uri n,
               symbolDict := dictAfter f.symbolDict (syms f.uri n) } := by
  cases n with
  | identifier name loc =>
      simp [parseNode, idents, syms, LuaFileInfo.pushIdentifier, dictAfter]
  | functionDeclaration ident params body loc =>
      cases ident with
      | none =>
          cases body with
          | none => simp [parseNode, idents, syms, dictAfter]
          | some stmts =>
              rw [parseNode]
              rw [parseNodes_eq]
              simp [idents, syms, dictAfter]
      | some idNode =>
          cases body with
          | none =>
              simp [parseNode, idents, syms, LuaFileInfo.insertSymbol, dictAfter]
          | some stmts =>
              rw [parseNode]
              rw [parseNodes_eq]
              simp [idents, syms, LuaFileInfo.insertSymbol, dictAfter]
  | callStatement expression loc =>
      rw [parseNode, parseNode_eq]
      simp [idents, syms]
  | callExpression base arguments loc =>
      cases arguments with
      | none =>
          rw [parseNode, parseNode_eq]
          simp [idents, syms]
      | some args =>
          rw [parseNode, parseNode_eq, parseNodes_eq]
          simp [idents, syms, dictAfter_append]
  | other ident body loc =>
      cases ident with
      | none =>
          cases body with
          | none => simp [parseNode, idents, syms, dictAfter]
          | some stmts =>
              rw [parseNode, parseNodes_eq]
              simp [idents, syms]
      | some idNode =>
          cases body with
          | none =>
              rw [parseNode, parseNode_eq]
              simp [idents, syms]
          | some stmts =>
              rw [parseNode, parseNode_eq, parseNodes_eq]
              simp [idents, syms, dictAfter_append]

theorem parseNodes_eq (f : LuaFileInfo) (p : List LuaNode) (l : List LuaNode) :
    parseNodes f p l =
      { f with identifiers := f.identifiers ++ identsList l,
               symbolList := f.symbolList ++ symsList f.uri l,
               symbolDict := dictAfter f.symbolDict (symsList f.uri l) } := by
  cases l with
  | nil => simp [parseNodes, identsList, symsList, dictAfter]
  | cons n rest =>
      rw [parseNodes, parseNode_eq, parseNodes_eq]
      simp [identsList, symsList, dictAfter_append]

end
theorem jsLookup_jsInsert_self {α : Type} (k : String) (v : α)
    (d : List (String × α)) : jsLookup k (jsInsert k v d) = some v := by
  induction d with
  | nil => simp [jsInsert, jsLookup]
  | cons e rest ih =>
      obtain ⟨k', v'⟩ := e
      by_cases h : k' = k
      · simp [jsInsert, jsLookup, h]
      · simp [jsInsert, jsLookup, h, ih]

theorem jsLookup_jsInsert_ne {α : Type} (k k' : String) (v : α)
    (d : List (String × α)) (h : k' ≠ k) :
    jsLookup k' (jsInsert k v d) = jsLookup k' d := by
  have hne : ¬ k = k' := fun hh => h hh.symm
  induction d with
  | nil => simp [jsInsert, jsLookup, hne]
  | cons e rest ih =>
      obtain ⟨k'', v''⟩ := e
      by_cases hk : k'' = k
      · subst hk
        simp [jsInsert, jsLookup, hne]
      · simp [jsInsert, jsLookup, hk, ih]

/-- the keys of `jsInsert`: an existing key stays in place, a new key is
appended. -/
theorem jsInsert_keys {α : Type} (k : String) (v : α) (d : List (String × α)) :
    (jsInsert k v d).map Prod.fst =
      if k ∈ d.map Prod.fst then d.map Prod.fst else d.map Prod.fst ++ [k] := by
  induction d with
  | nil => simp [jsInsert]
  | cons e rest ih =>
      obtain ⟨k', v'⟩ := e
      by_cases h : k' = k
      · simp [jsInsert, h]
      · have hne : k ≠ k' := fun hh => h hh.symm
        simp [jsInsert, h, ih, hne]
        by_cases hmem : k ∈ rest.map Prod.fst <;> simp [hmem, hne]

theorem jsInsert_keys_nodup {α : Type} (k : String) (v : α)
    (d : List (String × α)) (h : (d.map Prod.fst).Nodup) :
    ((jsInsert k v d).map Prod.fst).Nodup := by
  rw [jsInsert_keys]
  by_cases hmem : k ∈ d.map Prod.fst
  · simpa [hmem] using h
  · simp [hmem, List.nodup_append, h, hmem]
/-- after a `refreshFile` whose parse succeeds, no exception escaped and the
entry exists and is clean. -/
theorem refreshFile_success (parse : String → Option LuaNode) (dict : Workspace)
    (uri content : String) (ast : LuaNode) (h : parse content = some ast) :
    (refreshFile parse dict uri content).crashed = false ∧
    ∃ f, jsLookup uri (refreshFile parse dict uri content).dict = some f ∧
      f.changed = false := by
  cases hl : jsLookup uri dict with
  | none =>
      have hr : refreshFile parse dict uri content =
          ⟨jsInsert uri
              { parseNode ((LuaFileInfo.new uri).cleanSymbol) [] ast with changed := false }
              (jsInsert uri (LuaFileInfo.new uri) dict), true, false⟩ := by
        simp [refreshFile, hl, h, LuaFileInfo.new, LuaFileInfo.cleanSymbol]
      rw [hr]
      exact ⟨rfl, _, jsLookup_jsInsert_self _ _ _, rfl⟩
  | some f =>
      cases hc : f.changed with
      | true =>
          have hr : refreshFile parse dict uri content =
              ⟨jsInsert uri { parseNode f.cleanSymbol [] ast with changed := false } dict,
                true, false⟩ := by
            simp [refreshFile, hl, hc, h]
          rw [hr]
          exact ⟨rfl, _, jsLookup_jsInsert_self _ _ _, rfl⟩
      | false =>
          have hr : refreshFile parse dict uri content = ⟨dict, false, false⟩ := by
            simp [refreshFile, hl, hc]
          rw [hr]
          exact ⟨rfl, f, hl, hc⟩

/-- a `refreshFile` that finds a clean entry does nothing. -/
theorem refreshFile_clean (parse : String → Option LuaNode) (dict : Workspace)
    (uri content : String) (f : LuaFileInfo) (hf : jsLookup uri dict = some f)
    (hc : f.changed = false) :
    refreshFile parse dict uri content = ⟨dict, false, false⟩ := by
  simp [refreshFile, hf, hc]
/-- C3: `checkRange` returns true iff the position lies in the closed
line interval and respects the inclusive column bounds on the boundary
lines; in particular the end-of-range position itself is contained. -/
theorem checkRange_contains_iff :
    (∀ (range : Range) (line character : Nat),
        checkRange range line character = true ↔
          (range.start.line ≤ line ∧ line ≤ range.stop.line ∧
           (line = range.start.line → range.start.character ≤ character) ∧
           (line = range.stop.line → character ≤ range.stop.character))) ∧
    (∀ range : Range,
        (range.start.line < range.stop.line ∨
          (range.start.line = range.stop.line ∧
           range.start.character ≤ range.stop.character)) →
        checkRange range range.stop.line range.stop.character = true) := by
  have hiff : ∀ (range : Range) (line character : Nat),
      checkRange range line character = true ↔
        (range.start.line ≤ line ∧ line ≤ range.stop.line ∧
         (line = range.start.line → range.start.character ≤ character) ∧
         (line = range.stop.line → character ≤ range.stop.character)) := by
    intro r l c
    simp only [checkRange, Bool.or_eq_true, decide_eq_true_eq, Bool.and_eq_true]
    split
    · simp only [Bool.false_eq_true, false_iff]
      omega
    · split
      · simp only [Bool.false_eq_true, false_iff]
        omega
      · split
        · simp only [Bool.false_eq_true, false_iff]
          omega
        · simp only [true_iff]
          omega
  refine ⟨hiff, ?_⟩
  intro r h
  rw [hiff]
  omega

/-- C3 witness: the position at the end line/column of a concrete range is
inside it. -/
theorem checkRange_contains_iff_witness :
    checkRange ⟨⟨2, 5⟩, ⟨2, 9⟩⟩ 2 9 = true :=
  checkRange_contains_iff.2 ⟨⟨2, 5⟩, ⟨2, 9⟩⟩ (Or.inr ⟨rfl, by decide⟩)

/-- a concrete AST: `function foo() end` with the declaration spanning
line 1 (luaparse 1-based) columns 0-16 and the name token at columns 9-12. -/
def astFoo : LuaNode :=
  .functionDeclaration (some (.identifier "foo" ⟨⟨1, 9⟩, ⟨1, 12⟩⟩)) []
    (some []) ⟨⟨1, 0⟩, ⟨1, 16⟩⟩

/-- a parser stub that parses every content as `astFoo`. -/
def parseFoo : String → Option LuaNode := fun _ => some astFoo

/-- C4: when the parse succeeds, a second `refreshFile` with no intervening
change notification finds the entry clean, performs no walk, and leaves the
whole workspace dictionary (hence the entry's identity, occurrences, symbol
list and symbol table) unchanged. -/
theorem refreshFile_idempotent (parse : String → Option LuaNode)
    (dict : Workspace) (uri content : String) (ast : LuaNode)
    (h : parse content = some ast) :
    (∃ f, jsLookup uri (refreshFile parse dict uri content).dict = some f ∧
        f.changed = false) ∧
    refreshFile parse (refreshFile parse dict uri content).dict uri content =
      ⟨(refreshFile parse dict uri content).dict, false, false⟩ := by
  obtain ⟨hcr, f, hf, hc⟩ := refreshFile_success parse dict uri content ast h
  exact ⟨⟨f, hf, hc⟩, refreshFile_clean parse _ uri content f hf hc⟩

/-- C4 witness at a concrete workspace. -/
theorem refreshFile_idempotent_witness :
    (∃ f, jsLookup "a.lua" (refreshFile parseFoo [] "a.lua" "x").dict = some f ∧
        f.changed = false) ∧
    refreshFile parseFoo (refreshFile parseFoo [] "a.lua" "x").dict "a.lua" "x" =
      ⟨(refreshFile parseFoo [] "a.lua" "x").dict, false, false⟩ :=
  refreshFile_idempotent parseFoo [] "a.lua" "x" astFoo rfl
/-- a concrete AST: `function foo() ... end` whose body contains the call
statement `bar()`, so the file has both a declared symbol and an
occurrence. -/
def astFooBody : LuaNode :=
  .functionDeclaration (some (.identifier "foo" ⟨⟨1, 9⟩, ⟨1, 12⟩⟩)) []
    (some [.callStatement
        (.callExpression (.identifier "bar" ⟨⟨2, 2⟩, ⟨2, 5⟩⟩) none ⟨⟨2, 2⟩, ⟨2, 7⟩⟩)
        ⟨⟨2, 2⟩, ⟨2, 7⟩⟩])
    ⟨⟨1, 0⟩, ⟨3, 3⟩⟩

/-- a parser stub: content `"good"` parses to `astFooBody`, anything else
throws (a parse failure). -/
def parseGoodBad : String → Option LuaNode :=
  fun c => if c = "good" then some astFooBody else none

/-- workspace after a successful index of `a.lua`. -/
def wsAfterGood : Workspace := (refreshFile parseGoodBad [] "a.lua" "good").dict

/-- the same workspace after a content-change notification for `a.lua`. -/
def wsAfterChange : Workspace := onDidChangeContent wsAfterGood "a.lua"

/-- the rebuild attempt on the changed file whose parse fails. -/
def refreshBad : RefreshResult := refreshFile parseGoodBad wsAfterChange "a.lua" "bad"

/-- C1 (evidence of the divergence): before the failing rebuild the entry
holds the stale artifacts of the previous successful parse; the failing
rebuild leaves the entry Dirty as the claim says, but it destroys the stale
occurrences and symbols (`cleanSymbol()` runs before the parse) and the
parse exception escapes `refreshFile` uncaught instead of being reported as
a diagnostic. -/
theorem refreshFile_parse_failure_behavior :
    jsLookup "a.lua" wsAfterChange =
      some ⟨"a.lua", true,
        [⟨"bar", "", ⟨⟨1, 2⟩, ⟨1, 5⟩⟩⟩],
        [SymbolInformation.create "foo" 12 ⟨⟨0, 0⟩, ⟨2, 3⟩⟩ "a.lua"],
        [("foo", SymbolInformation.create "foo" 12 ⟨⟨0, 0⟩, ⟨2, 3⟩⟩ "a.lua")]⟩ ∧
    refreshBad.crashed = true ∧
    refreshBad.walked = false ∧
    jsLookup "a.lua" refreshBad.dict = some ⟨"a.lua", true, [], [], []⟩ := by
  decide

/-- C2 counterexample: two paths to the same file that differ only in the
drive letter's case yield different identities, and neither is lowercased. -/
theorem encodeUri_case_counterexample :
    encodeUri "C:\\test.lua" = "file:///C%3A/test.lua" ∧
    encodeUri "c:\\test.lua" = "file:///c%3A/test.lua" ∧
    encodeUri "C:\\test.lua" ≠ encodeUri "c:\\test.lua" := by
  decide

/-- C2 amended: `encodeUri` collapses only separator-style differences
(backslash vs forward slash); it never lowercases, and the resulting string
is the key under which `refreshFile` stores the File Index. -/
theorem encodeUri_separators_and_storage_key :
    (∀ file : String,
        encodeUri (String.mk (file.toList.map fun c => if c = '\\' then '/' else c)) =
          encodeUri file) ∧
    (∀ (parse : String → Option LuaNode) (dict : Workspace) (uri content : String),
        ∃ f, jsLookup uri (refreshFile parse dict uri content).dict = some f) := by
  constructor
  · intro file
    have hsep : ∀ c : Char,
        (if (if c = '\\' then '/' else c) = '\\' then '/' else if c = '\\' then '/' else c) =
          (if c = '\\' then '/' else c) := by
      intro c
      by_cases h : c = '\\' <;> simp [h]
    have hfun : ((fun c : Char => if c = '\\' then '/' else c) ∘
          fun c : Char => if c = '\\' then '/' else c) =
        fun c : Char => if c = '\\' then '/' else c := by
      funext c
      exact hsep c
    have hdata : (String.mk (file.toList.map fun c => if c = '\\' then '/' else c)).toList =
        file.toList.map fun c => if c = '\\' then '/' else c := rfl
    simp only [encodeUri, hdata, List.map_map, hfun]
  · intro parse dict uri content
    cases hl : jsLookup uri dict with
    | none =>
        cases hp : parse content with
        | none =>
            have hr : refreshFile parse dict uri content =
                ⟨jsInsert uri ((LuaFileInfo.new uri).cleanSymbol)
                    (jsInsert uri (LuaFileInfo.new uri) dict), false, true⟩ := by
              simp [refreshFile, hl, hp, LuaFileInfo.new, LuaFileInfo.cleanSymbol]
            rw [hr]
            exact ⟨_, jsLookup_jsInsert_self _ _ _⟩
        | some ast =>
            have hr : refreshFile parse dict uri content =
                ⟨jsInsert uri
                    { parseNode ((LuaFileInfo.new uri).cleanSymbol) [] ast with changed := false }
                    (jsInsert uri (LuaFileInfo.new uri) dict), true, false⟩ := by
              simp [refreshFile, hl, hp, LuaFileInfo.new, LuaFileInfo.cleanSymbol]
            rw [hr]
            exact ⟨_, jsLookup_jsInsert_self _ _ _⟩
    | some f =>
        cases hc : f.changed with
        | true =>
            cases hp : parse content with
            | none =>
                have hr : refreshFile parse dict uri content =
                    ⟨jsInsert uri f.cleanSymbol dict, false, true⟩ := by
                  simp [refreshFile, hl, hc, hp]
                rw [hr]
                exact ⟨_, jsLookup_jsInsert_self _ _ _⟩
            | some ast =>
                have hr : refreshFile parse dict uri content =
                    ⟨jsInsert uri { parseNode f.cleanSymbol [] ast with changed := false } dict,
                      true, false⟩ := by
                  simp [refreshFile, hl, hc, hp]
                rw [hr]
                exact ⟨_, jsLookup_jsInsert_self _ _ _⟩
        | false =>
            refine ⟨f, ?_⟩
            simp [refreshFile, hl, hc]
/-- folding `insertSymbol` preserves the symbol-table invariant: unique
keys, and the entry for a name is the most recently inserted symbol with
that name. -/
theorem insertSymbol_fold_inv (ss : List SymbolInformation) (f : LuaFileInfo)
    (hkeys : (f.symbolDict.map Prod.fst).Nodup)
    (hlook : ∀ name, jsLookup name f.symbolDict =
        f.symbolList.reverse.find? (fun s => s.name == name)) :
    (ss.foldl LuaFileInfo.insertSymbol f).symbolList = f.symbolList ++ ss ∧
    (((ss.foldl LuaFileInfo.insertSymbol f).symbolDict.map Prod.fst).Nodup) ∧
    (∀ name, jsLookup name (ss.foldl LuaFileInfo.insertSymbol f).symbolDict =
        (ss.foldl LuaFileInfo.insertSymbol f).symbolList.reverse.find?
          (fun s => s.name == name)) := by
  induction ss generalizing f with
  | nil => simpa using ⟨hkeys, hlook⟩
  | cons s rest ih =>
      have hkeys' : ((f.insertSymbol s).symbolDict.map Prod.fst).Nodup := by
        simpa [LuaFileInfo.insertSymbol] using
          jsInsert_keys_nodup s.name s f.symbolDict hkeys
      have hlook' : ∀ name, jsLookup name (f.insertSymbol s).symbolDict =
          (f.insertSymbol s).symbolList.reverse.find? (fun t => t.name == name) := by
        intro name
        by_cases h : name = s.name
        · subst h
          simp [LuaFileInfo.insertSymbol, jsLookup_jsInsert_self]
        · have hbeq : (s.name == name) = false := by
            simp
            exact fun hh => h hh.symm
          simp [LuaFileInfo.insertSymbol, jsLookup_jsInsert_ne _ _ _ _ h, hlook,
            List.find?_cons, hbeq]
      have hrest := ih (f.insertSymbol s) hkeys' hlook'
      simp only [List.foldl_cons]
      refine ⟨?_, hrest.2.1, hrest.2.2⟩
      rw [hrest.1]
      simp [LuaFileInfo.insertSymbol]

/-- chunk with two `function dup() end` declarations (luaparse 1-based
lines 1 and 2). -/
def astDupChunk : LuaNode :=
  .other none (some
      [.functionDeclaration (some (.identifier "dup" ⟨⟨1, 9⟩, ⟨1, 12⟩⟩)) []
          (some []) ⟨⟨1, 0⟩, ⟨1, 16⟩⟩,
       .functionDeclaration (some (.identifier "dup" ⟨⟨2, 9⟩, ⟨2, 12⟩⟩)) []
          (some []) ⟨⟨2, 0⟩, ⟨2, 16⟩⟩])
    ⟨⟨1, 0⟩, ⟨2, 16⟩⟩

/-- C5: after any insertion sequence into a fresh File Index the name table
has exactly one entry per name (its keys are nodup), the entry for a name is
the last inserted symbol with that name, and the ordered list keeps every
insertion; concretely, walking two `function dup() end` declarations leaves
`symbolDict` pointing at the second declaration while `symbolList` has both. -/
theorem insertSymbol_last_wins :
    (∀ (uri : String) (ss : List SymbolInformation),
        (ss.foldl LuaFileInfo.insertSymbol (LuaFileInfo.new uri)).symbolList = ss ∧
        (((ss.foldl LuaFileInfo.insertSymbol (LuaFileInfo.new uri)).symbolDict.map
            Prod.fst).Nodup) ∧
        (∀ name,
            jsLookup name
                (ss.foldl LuaFileInfo.insertSymbol (LuaFileInfo.new uri)).symbolDict =
              ss.reverse.find? (fun s => s.name == name))) ∧
    ((parseNode (LuaFileInfo.new "a.lua") [] astDupChunk).symbolDict =
        [("dup", SymbolInformation.create "dup" 12 ⟨⟨1, 0⟩, ⟨1, 16⟩⟩ "a.lua")] ∧
      (parseNode (LuaFileInfo.new "a.lua") [] astDupChunk).symbolList =
        [SymbolInformation.create "dup" 12 ⟨⟨0, 0⟩, ⟨0, 16⟩⟩ "a.lua",
         SymbolInformation.create "dup" 12 ⟨⟨1, 0⟩, ⟨1, 16⟩⟩ "a.lua"]) := by
  constructor
  · intro uri ss
    have h := insertSymbol_fold_inv ss (LuaFileInfo.new uri)
      (by simp [LuaFileInfo.new]) (by simp [LuaFileInfo.new, jsLookup])
    refine ⟨by simpa [LuaFileInfo.new] using h.1, h.2.1, ?_⟩
    intro name
    rw [h.2.2 name, h.1]
    simp [LuaFileInfo.new]
  · constructor
    · decide
    · decide
/-- `function shared() end` at luaparse line 1. -/
def astSharedA : LuaNode :=
  .functionDeclaration (some (.identifier "shared" ⟨⟨1, 9⟩, ⟨1, 15⟩⟩)) []
    (some []) ⟨⟨1, 0⟩, ⟨1, 19⟩⟩

/-- `function shared() end` at luaparse line 3. -/
def astSharedB : LuaNode :=
  .functionDeclaration (some (.identifier "shared" ⟨⟨3, 9⟩, ⟨3, 15⟩⟩)) []
    (some []) ⟨⟨3, 0⟩, ⟨3, 19⟩⟩

/-- a parser stub for the two-file scenario. -/
def parseShared : String → Option LuaNode :=
  fun c => if c = "A" then some astSharedA else
    if c = "B" then some astSharedB else none

/-- workspace with `a.lua` then `b.lua` indexed, both declaring `shared`. -/
def wsShared : Workspace :=
  (refreshFile parseShared (refreshFile parseShared [] "a.lua" "A").dict
    "b.lua" "B").dict

/-- C6: `searchIdent` walks the workspace in insertion order, appending the
location stored under the identifier's name wherever the per-file symbol
table has one; no match yields `[]`, never a failure; and with two files
each declaring `shared` it returns their two locations in file-insertion
order. -/
theorem searchIdent_resolves :
    (∀ (dict : Workspace) (identifier : Identifier),
        searchIdent dict identifier =
          dict.filterMap (fun e =>
            (jsLookup identifier.name e.2.symbolDict).map SymbolInformation.location)) ∧
    (∀ (dict : Workspace) (identifier : Identifier),
        (∀ e ∈ dict, jsLookup identifier.name e.2.symbolDict = none) →
        searchIdent dict identifier = []) ∧
    searchIdent wsShared ⟨"shared", "", ⟨⟨0, 0⟩, ⟨0, 0⟩⟩⟩ =
      [⟨"a.lua", ⟨⟨0, 0⟩, ⟨0, 19⟩⟩⟩, ⟨"b.lua", ⟨⟨2, 0⟩, ⟨2, 19⟩⟩⟩] := by
  have hmap : ∀ (dict : Workspace) (identifier : Identifier),
      searchIdent dict identifier =
        dict.filterMap (fun e =>
          (jsLookup identifier.name e.2.symbolDict).map SymbolInformation.location) := by
    intro dict identifier
    induction dict with
    | nil => simp [searchIdent]
    | cons e rest ih =>
        obtain ⟨uri, luaFile⟩ := e
        cases h : jsLookup identifier.name luaFile.symbolDict with
        | none => simp [searchIdent, h, ih]
        | some symbol => simp [searchIdent, h, ih]
  refine ⟨hmap, ?_, by decide⟩
  intro dict identifier hall
  rw [hmap]
  apply List.filterMap_eq_nil_iff.mpr
  intro e he
  rw [hall e he]
  rfl

/-- C6 witness: a workspace whose only file declares nothing resolves any
name to the empty sequence. -/
theorem searchIdent_resolves_witness :
    searchIdent [("a.lua", LuaFileInfo.new "a.lua")]
      ⟨"x", "", ⟨⟨0, 0⟩, ⟨0, 0⟩⟩⟩ = [] :=
  searchIdent_resolves.2.1 [("a.lua", LuaFileInfo.new "a.lua")]
    ⟨"x", "", ⟨⟨0, 0⟩, ⟨0, 0⟩⟩⟩ (by decide)
/-- C7: on a call expression the walker emits the callee's occurrences
first, then the arguments' occurrences left to right, for any base
expression; concretely `foo(bar)` emits exactly `foo` then `bar`. -/
theorem parseNode_call_order :
    (∀ (f : LuaFileInfo) (p : List LuaNode) (base : LuaNode)
        (args : List LuaNode) (loc : Loc),
        (parseNode f p (.callExpression base (some args) loc)).identifiers =
          f.identifiers ++ idents base ++ identsList args) ∧
    (∀ (f : LuaFileInfo) (p : List LuaNode) (base : LuaNode) (loc : Loc),
        (parseNode f p (.callExpression base none loc)).identifiers =
          f.identifiers ++ idents base) ∧
    (parseNode (LuaFileInfo.new "a.lua") []
        (.callExpression (.identifier "foo" ⟨⟨1, 0⟩, ⟨1, 3⟩⟩)
          (some [.identifier "bar" ⟨⟨1, 4⟩, ⟨1, 7⟩⟩]) ⟨⟨1, 0⟩, ⟨1, 8⟩⟩)).identifiers =
      [⟨"foo", "", ⟨⟨0, 0⟩, ⟨0, 3⟩⟩⟩, ⟨"bar", "", ⟨⟨0, 4⟩, ⟨0, 7⟩⟩⟩] := by
  refine ⟨?_, ?_, by decide⟩
  · intro f p base args loc
    rw [parseNode_eq]
    simp [idents, List.append_assoc]
  · intro f p base loc
    rw [parseNode_eq]
    simp [idents]

/-- C8: a function declaration that carries a name emits exactly one
symbol for itself — kind 12 (Function), range the whole declaration's
range, container the file's uri — followed by the body's symbols; an
anonymous declaration emits only the body's symbols. -/
theorem parseNode_functionDeclaration_symbol :
    (∀ (f : LuaFileInfo) (p : List LuaNode) (nm : String) (il : Loc)
        (params : List LuaNode) (body : Option (List LuaNode)) (loc : Loc),
        (parseNode f p
            (.functionDeclaration (some (.identifier nm il)) params body loc)).symbolList =
          f.symbolList ++
            SymbolInformation.create nm 12 (getRange loc) f.uri ::
              symsList f.uri (body.getD [])) ∧
    (∀ (f : LuaFileInfo) (p : List LuaNode) (params : List LuaNode)
        (body : Option (List LuaNode)) (loc : Loc),
        (parseNode f p (.functionDeclaration none params body loc)).symbolList =
          f.symbolList ++ symsList f.uri (body.getD [])) := by
  constructor
  · intro f p nm il params body loc
    rw [parseNode_eq]
    cases body <;> simp [syms, symsList, LuaNode.nameOf]
  · intro f p params body loc
    rw [parseNode_eq]
    cases body <;> simp [syms, symsList]
/-- the loop of `selectIdent` is `List.find?` of `checkRange`. -/
theorem findIdent_eq_find? (line character : Nat) (ids : List Identifier) :
    findIdent line character ids =
      ids.find? (fun id => checkRange id.range line character) := by
  induction ids with
  | nil => simp [findIdent]
  | cons id rest ih =>
      cases h : checkRange id.range line character with
      | true => simp [findIdent, List.find?_cons, h]
      | false => simp [findIdent, List.find?_cons, h, ih]

/-- C9: `selectIdent` returns the first occurrence (in traversal order)
whose range contains the cursor, and when none does the definition query
returns the empty sequence. -/
theorem selectIdent_first_match :
    (∀ (dict : Workspace) (uri : String) (line character : Nat) (f : LuaFileInfo),
        jsLookup uri dict = some f →
        selectIdent dict uri line character =
          f.identifiers.find? (fun id => checkRange id.range line character)) ∧
    (∀ (parse : String → Option LuaNode) (dict : Workspace)
        (uri content : String) (line character : Nat) (ast : LuaNode),
        parse content = some ast →
        selectIdent (refreshFile parse dict uri content).dict uri line character = none →
        (onDefinition parse dict uri content line character).2 = some []) := by
  constructor
  · intro dict uri line character f hf
    simp [selectIdent, hf, findIdent_eq_find?]
  · intro parse dict uri content line character ast hp hsel
    have hcr := (refreshFile_success parse dict uri content ast hp).1
    simp [onDefinition, hcr, hsel]

/-- a parser stub producing a node with no identifier occurrences. -/
def parseEmptyOther : String → Option LuaNode :=
  fun _ => some (.other none none ⟨⟨1, 0⟩, ⟨1, 0⟩⟩)

/-- C9 witness: in a file with no occurrences the definition query returns
the empty sequence. -/
theorem selectIdent_first_match_witness :
    (onDefinition parseEmptyOther [] "a.lua" "c" 0 0).2 = some [] :=
  selectIdent_first_match.2 parseEmptyOther [] "a.lua" "c" 0 0
    (.other none none ⟨⟨1, 0⟩, ⟨1, 0⟩⟩) rfl (by decide)

/-- C10: the walker never recurses into a function declaration's name or
parameter list (the emitted occurrences do not depend on them, only on the
body); concretely, for a file holding only `function foo() end` a
go-to-definition query at the declaration's own name (line 0, column 10)
selects no occurrence and returns the empty sequence. -/
theorem parseNode_functionDeclaration_skips_name_and_params :
    (∀ (f : LuaFileInfo) (p : List LuaNode) (ident : Option LuaNode)
        (params : List LuaNode) (body : Option (List LuaNode)) (loc : Loc),
        (parseNode f p (.functionDeclaration ident params body loc)).identifiers =
          f.identifiers ++ identsList (body.getD [])) ∧
    selectIdent (refreshFile parseFoo [] "a.lua" "c").dict "a.lua" 0 10 = none ∧
    (onDefinition parseFoo [] "a.lua" "c" 0 10).2 = some [] := by
  refine ⟨?_, by decide, by decide⟩
  intro f p ident params body loc
  rw [parseNode_eq]
  cases ident <;> cases body <;> simp [idents, identsList]
